import Mathlib

/-!
Verification of the `codeSpectra` corpus of algorithm snippets.

The repository is a corpus of small C++ algorithm solutions (binary search,
two-sum, max-subarray, sorting, linked-list reversal) gathered to study
source-code clone detection.  This file gives a shallow embedding of the
snippet functions named in the specification:

* `solveoom` (binary_search_student002.cpp) and `searchBinary`
  (codespectra/dsa_dataset/binary_search_variant.cpp) — iterative binary
  search over a `vector<int>`; the loops are embedded as well-founded
  recursion on the size of the remaining interval;
* `solvedps` (two_sum_student001.cpp) — brute-force two-sum;
* `solvejxa` (reverse_linked_list_student004.cpp) — linked-list reversal,
  with the list of node values modelled as a `List Int`;
* the fixed-input selection / bubble sorts of Student_8_SelectionSort.cpp
  and Student_3_DebugMode.cpp;
* the four max-subarray variants `maxSubArray` of max_subarray_02 / 03 /
  09 / 12.cpp and `solvegpw` (max_subarray_sum_student005.cpp);
* the token streams of the 69 binary-search snippets under
  `dsa_dataset/binary_search`, together with identifier renaming and the
  line-level def-before-use reordering of the statement-shuffled clones.

C++ `int` values are modelled as unbounded `Int`; every division performed
by the embedded code is applied to non-negative operands (this is proved
where it matters), where Lean's integer division agrees with C++ integer
division.  Vector subscripts out of range are undefined behaviour in C++;
the embedding returns a default value there, and the safety theorems show
the accesses of the embedded functions stay in bounds.
-/

/-- Reading `v[i]` for an `int` index `i`.  In-bounds reads return the
element; an out-of-bounds read is undefined behaviour in C++ and is
modelled by the default value 0. -/
def cppRead (v : List Int) (i : Int) : Int :=
  if 0 ≤ i then v.getD i.toNat 0 else 0

/-- Loop of `solveoom` (binary_search_student002.cpp):
`while (left <= right) { int mid = left + (right - left) / 2; ... }`. -/
def solveoomGo (numbers : List Int) (threshold : Int) (left right : Int) : Int :=
  if left ≤ right then
    let mid := left + (right - left) / 2
    if cppRead numbers mid = threshold then mid
    else if cppRead numbers mid < threshold then
      solveoomGo numbers threshold (mid + 1) right
    else
      solveoomGo numbers threshold (left) (mid - 1)
  else -1
termination_by (right + 1 - left).toNat
decreasing_by
  · simp_wf; omega
  · simp_wf; omega

/-- `solveoom` (binary_search_student002.cpp): binary search for
`threshold` in `numbers`, starting from `left = 0`,
`right = numbers.size() - 1`. -/
def solveoom (numbers : List Int) (threshold : Int) : Int :=
  solveoomGo numbers threshold 0 ((numbers.length : Int) - 1)

/-- Loop of `searchBinary` (binary_search_variant.cpp):
`while (start <= end) { int middle = (start + end) / 2; ... }`.
The C++ variable `end` is a Lean keyword and is spelled `endIdx`. -/
def searchBinaryGo (nums : List Int) (value : Int) (start endIdx : Int) : Int :=
  if start ≤ endIdx then
    let middle := (start + endIdx) / 2
    if cppRead nums middle = value then middle
    else if cppRead nums middle < value then
      searchBinaryGo nums value (middle + 1) endIdx
    else
      searchBinaryGo nums value start (middle - 1)
  else -1
termination_by (endIdx + 1 - start).toNat
decreasing_by
  · simp_wf; omega
  · simp_wf; omega

/-- `searchBinary` (binary_search_variant.cpp). -/
def searchBinary (nums : List Int) (value : Int) : Int :=
  searchBinaryGo nums value 0 ((nums.length : Int) - 1)

/-- Indices read from `numbers` by the loop of `solveoom` (each iteration
subscripts `numbers[mid]`). -/
def solveoomGoAcc (numbers : List Int) (threshold : Int) (left right : Int) : List Int :=
  if left ≤ right then
    let mid := left + (right - left) / 2
    if cppRead numbers mid = threshold then [mid]
    else if cppRead numbers mid < threshold then
      mid :: solveoomGoAcc numbers threshold (mid + 1) right
    else
      mid :: solveoomGoAcc numbers threshold (left) (mid - 1)
  else []
termination_by (right + 1 - left).toNat
decreasing_by
  · simp_wf; omega
  · simp_wf; omega

/-- Indices read from `numbers` by a run of `solveoom`. -/
def solveoomAccesses (numbers : List Int) (threshold : Int) : List Int :=
  solveoomGoAcc numbers threshold 0 ((numbers.length : Int) - 1)

/-- Indices read from `nums` by the loop of `searchBinary`. -/
def searchBinaryGoAcc (nums : List Int) (value : Int) (start endIdx : Int) : List Int :=
  if start ≤ endIdx then
    let middle := (start + endIdx) / 2
    if cppRead nums middle = value then [middle]
    else if cppRead nums middle < value then
      middle :: searchBinaryGoAcc nums value (middle + 1) endIdx
    else
      middle :: searchBinaryGoAcc nums value start (middle - 1)
  else []
termination_by (endIdx + 1 - start).toNat
decreasing_by
  · simp_wf; omega
  · simp_wf; omega

/-- Indices read from `nums` by a run of `searchBinary`. -/
def searchBinaryAccesses (nums : List Int) (value : Int) : List Int :=
  searchBinaryGoAcc nums value 0 ((nums.length : Int) - 1)

/-- Inner loop of `solvedps` (two_sum_student001.cpp):
`for (int b = i+1; b < nums.size(); ++b) if (nums[i] + nums[b] == sum_val) return {i, b};`
`some r` models the early `return r`, `none` falling off the loop. -/
def solvedpsInner (nums : List Int) (sum_val : Int) (i b : Nat) : Option (List Int) :=
  if b < nums.length then
    if nums.getD i 0 + nums.getD b 0 = sum_val then some [(i : Int), (b : Int)]
    else solvedpsInner nums sum_val i (b + 1)
  else none
termination_by nums.length - b

/-- Outer loop of `solvedps` (two_sum_student001.cpp). -/
def solvedpsOuter (nums : List Int) (sum_val : Int) (i : Nat) : List Int :=
  if i < nums.length then
    match solvedpsInner nums sum_val i (i + 1) with
    | some r => r
    | none => solvedpsOuter nums sum_val (i + 1)
  else []
termination_by nums.length - i

/-- `solvedps` (two_sum_student001.cpp): brute-force two-sum returning the
first index pair found, or the empty vector. -/
def solvedps (nums : List Int) (sum_val : Int) : List Int :=
  solvedpsOuter nums sum_val 0

/-- A pair of positions of `nums` that the two-sum function is looking
for: distinct indices in increasing order whose elements sum to
`sum_val`. -/
def ValidPair (nums : List Int) (sum_val : Int) (i j : Nat) : Prop :=
  i < j ∧ j < nums.length ∧ nums.getD i 0 + nums.getD j 0 = sum_val

instance (nums : List Int) (sum_val : Int) (i j : Nat) :
    Decidable (ValidPair nums sum_val i j) := by
  unfold ValidPair; infer_instance

/-- Loop of `solvejxa` (reverse_linked_list_student004.cpp).  A singly
linked list is modelled by the sequence of its node values, the null
pointer by `[]`.  One iteration moves the head node onto `prev`. -/
def solvejxaGo (head prev : List Int) : List Int :=
  match head with
  | [] => prev
  | x :: next_node => solvejxaGo next_node (x :: prev)

/-- `solvejxa` (reverse_linked_list_student004.cpp): iterative reversal
starting from `prev = NULL`. -/
def solvejxa (head : List Int) : List Int :=
  solvejxaGo head []

/-- Contents of `arr` after the selection-sort loop of
Student_8_SelectionSort.cpp `main` (`n = 5`, `arr = {64,34,25,12,22}`).
Each counted `for` loop is embedded as a fold over its index range. -/
def student8Arr : List Int :=
  (List.range (5 - 1)).foldl (fun arr i =>
    let min_idx := (List.range' (i + 1) (5 - (i + 1))).foldl
      (fun m j => if arr.getD j 0 < arr.getD m 0 then j else m) i
    let temp := arr.getD min_idx 0
    (arr.set min_idx (arr.getD i 0)).set i temp)
    [64, 34, 25, 12, 22]

/-- Contents of `arr` after the bubble-sort loop of
Student_3_DebugMode.cpp `main` (`n = 5`, `arr = {64,34,25,12,22}`);
the `cout` tracing lines do not touch `arr`. -/
def student3Arr : List Int :=
  (List.range (5 - 1)).foldl (fun arr i =>
    (List.range (5 - i - 1)).foldl (fun arr j =>
      if arr.getD j 0 > arr.getD (j + 1) 0 then
        let temp := arr.getD j 0
        (arr.set j (arr.getD (j + 1) 0)).set (j + 1) temp
      else arr) arr)
    [64, 34, 25, 12, 22]

/-- Specification helper: `mps l` is the maximum over the sums of the
non-empty prefixes of `l` (`mps [] = 0` is an unused base value; the
equation `mps (x :: xs) = max x (x + mps xs)` also holds for `xs = []`
because the only non-empty prefix is then `[x]`). -/
def mps : List Int → Int
  | [] => 0
  | x :: xs => max x (x + mps xs)

/-- Specification helper: maximum over the sums of the non-empty suffixes
of `l`. -/
def mts (l : List Int) : Int :=
  mps l.reverse

/-- Auxiliary recursion for `msa`, over the reversed list: the maximum
subarray of `l ++ [x]` is either the best window of `l` or the best
window ending at `x`. -/
def msaAux : List Int → Int
  | [] => 0
  | [x] => x
  | x :: y :: t => max (msaAux (y :: t)) (mps (x :: y :: t))

/-- Specification: `msa l` is the maximum over the sums of the non-empty
contiguous subarrays (windows) of `l`, for non-empty `l`; the
characterisation is proved below. -/
def msa (l : List Int) : Int :=
  msaAux l.reverse

/-- The value of the C `INT_MIN` constant used by max_subarray_02.cpp and
max_subarray_09.cpp (32-bit `int`). -/
def INT_MIN : Int := -(2 ^ 31)

/-- `maxSubArray` of max_subarray_03.cpp: cubic brute force; all three
counted `for` loops are embedded as folds over their index ranges. -/
def maxSubArray03 (nums : List Int) : Int :=
  (List.range nums.length).foldl (fun maxSum i =>
    (List.range' i (nums.length - i)).foldl (fun maxSum j =>
      let sum := (List.range' i (j + 1 - i)).foldl (fun s k => s + nums.getD k 0) 0
      max maxSum sum) maxSum)
    (nums.getD 0 0)

/-- `maxSubArray` of max_subarray_12.cpp: Kadane with
`sum = max(x, sum + x)` and the running maximum initialised to
`nums[0]`; the state pair is `(sum, maxi)`. -/
def maxSubArray12 (nums : List Int) : Int :=
  (nums.foldl (fun (st : Int × Int) x =>
    let sum := max x (st.1 + x)
    (sum, max st.2 sum)) (0, nums.getD 0 0)).2

/-- `maxSubArray` of max_subarray_02.cpp: Kadane with the running sum
reset to 0 when negative and the maximum initialised to `INT_MIN`. -/
def maxSubArray02 (nums : List Int) : Int :=
  ((List.range nums.length).foldl (fun (st : Int × Int) i =>
    let sum := st.1 + nums.getD i 0
    let maxi := max sum st.2
    (if sum < 0 then 0 else sum, maxi)) (0, INT_MIN)).2

/-- `maxSubArray` of max_subarray_09.cpp: Kadane written with an
`if (sum + nums[i] >= nums[i])` extension test and the maximum
initialised to `INT_MIN`. -/
def maxSubArray09 (nums : List Int) : Int :=
  ((List.range nums.length).foldl (fun (st : Int × Int) i =>
    let sum := if st.1 + nums.getD i 0 ≥ nums.getD i 0 then st.1 + nums.getD i 0
      else nums.getD i 0
    (sum, max st.2 sum)) (0, INT_MIN)).2

/-- `solvegpw` (max_subarray_sum_student005.cpp): Kadane with
`curr = max(num, curr + num)` and `max_sum` initialised to `arr[0]`. -/
def solvegpw (arr : List Int) : Int :=
  (arr.foldl (fun (st : Int × Int) num =>
    let curr := max num (st.1 + num)
    (curr, max st.2 curr)) (0, arr.getD 0 0)).2

/-- Vector subscript positions evaluated by `maxSubArray` of
max_subarray_03.cpp: the initialiser reads `nums[0]`, the innermost loop
reads `nums[k]` for `i ≤ k ≤ j`. -/
def maxSubArray03Accesses (nums : List Int) : List Nat :=
  0 :: (List.range nums.length).flatMap (fun i =>
    (List.range' i (nums.length - i)).flatMap (fun j => List.range' i (j + 1 - i)))

/-- Vector subscript positions evaluated by `maxSubArray` of
max_subarray_12.cpp: only the initialiser `int maxi = nums[0]`
subscripts the vector (the loop is a range-`for`). -/
def maxSubArray12Accesses (_nums : List Int) : List Nat := [0]

/-- Vector subscript positions evaluated by `solvegpw`
(max_subarray_sum_student005.cpp): only `int max_sum = arr[0]`. -/
def solvegpwAccesses (_arr : List Int) : List Nat := [0]

/-- The sums of all windows enumerated by the loops of
`maxSubArray` (max_subarray_03.cpp): for each `i < n` and each
`i ≤ j < n`, the sum of `nums[i..j]`. -/
def windowSums (nums : List Int) : List Int :=
  ((List.range nums.length).map (fun i =>
    (List.range' i (nums.length - i)).map
      (fun j => ((nums.drop i).take (j + 1 - i)).sum))).flatten

/-- Lexical tokens of the binary-search snippet functions (comments and
whitespace stripped, as required of the tokenizer in §4.1). -/
inductive Tok where
  | kwInt
  | kwVector
  | kwWhile
  | kwIf
  | kwElse
  | kwReturn
  | lparen
  | rparen
  | lbrace
  | rbrace
  | lbracket
  | rbracket
  | ltTok
  | gtTok
  | leqTok
  | eqeq
  | amp
  | comma
  | semi
  | assign
  | plus
  | minus
  | divOp
  | dot
  | num (n : Int)
  | ident (s : String)
deriving DecidableEq, Repr

/-- The statement lines occurring in the binary-search snippet files
(every one of the 69 files under `dsa_dataset/binary_search` consists of
exactly these ten lines, in some order, for some identifier names). -/
inductive Line where
  | sigLine (fn v t : String)
  | declLR (v : String)
  | whileHdr
  | declMid
  | ifEq (v t : String)
  | ifLt (v t : String)
  | elseLine
  | closeBrace
  | retNeg
deriving DecidableEq, Repr

/-- Token stream of one snippet line. -/
def lineToks : Line → List Tok
  | .sigLine fn v t =>
      [.kwInt, .ident fn, .lparen, .kwVector, .ltTok, .kwInt, .gtTok, .amp,
       .ident v, .comma, .kwInt, .ident t, .rparen, .lbrace]
  | .declLR v =>
      [.kwInt, .ident "left", .assign, .num 0, .comma, .ident "right", .assign,
       .ident v, .dot, .ident "size", .lparen, .rparen, .minus, .num 1, .semi]
  | .whileHdr =>
      [.kwWhile, .lparen, .ident "left", .leqTok, .ident "right", .rparen, .lbrace]
  | .declMid =>
      [.kwInt, .ident "mid", .assign, .ident "left", .plus, .lparen,
       .ident "right", .minus, .ident "left", .rparen, .divOp, .num 2, .semi]
  | .ifEq v t =>
      [.kwIf, .lparen, .ident v, .lbracket, .ident "mid", .rbracket, .eqeq,
       .ident t, .rparen, .kwReturn, .ident "mid", .semi]
  | .ifLt v t =>
      [.kwIf, .lparen, .ident v, .lbracket, .ident "mid", .rbracket, .ltTok,
       .ident t, .rparen, .ident "left", .assign, .ident "mid", .plus, .num 1, .semi]
  | .elseLine =>
      [.kwElse, .ident "right", .assign, .ident "mid", .minus, .num 1, .semi]
  | .closeBrace => [.rbrace]
  | .retNeg => [.kwReturn, .minus, .num 1, .semi]

/-- Token stream of a whole snippet function given its lines. -/
def fnToks (ls : List Line) : List Tok :=
  ls.flatMap lineToks

/-- The well-ordered (def-before-use) line sequence shared by 64 of the
69 binary-search snippets, with function name `fn`, vector parameter `v`
and target parameter `t`. -/
def canonicalLines (fn v t : String) : List Line :=
  [.sigLine fn v t, .declLR v, .whileHdr, .declMid, .ifEq v t, .ifLt v t,
   .elseLine, .closeBrace, .retNeg, .closeBrace]

/-- Token stream of a well-ordered binary-search snippet. -/
def bsToks (fn v t : String) : List Tok :=
  fnToks (canonicalLines fn v t)

/-- Lines of `solvejd_cloneib` (binary_search_student015_clone2.cpp), in
the file's textual order: `vecb[mid]` is used and `mid` declared before
the `while` header. -/
def lines015c2 : List Line :=
  [.sigLine "solvejd_cloneib" "vecb" "goalb", .declLR "vecb",
   .ifEq "vecb" "goalb", .declMid, .whileHdr, .ifLt "vecb" "goalb",
   .elseLine, .closeBrace, .retNeg, .closeBrace]

/-- Lines of `solveex_clonea` (binary_search_student021_clone1.cpp), in
the file's textual order. -/
def lines021c1 : List Line :=
  [.sigLine "solveex_clonea" "numbersa" "goala", .whileHdr,
   .declLR "numbersa", .declMid, .closeBrace, .elseLine,
   .ifEq "numbersa" "goala", .ifLt "numbersa" "goala", .retNeg, .closeBrace]

/-- Lines of `solveu_clonefh` (binary_search_student030_clone1.cpp). -/
def lines030c1 : List Line :=
  [.sigLine "solveu_clonefh" "numbersa" "thresholda", .whileHdr,
   .ifEq "numbersa" "thresholda", .declMid, .declLR "numbersa",
   .ifLt "numbersa" "thresholda", .elseLine, .closeBrace, .retNeg, .closeBrace]

/-- Lines of `solvefth_clonefe` (binary_search_student032_clone1.cpp). -/
def lines032c1 : List Line :=
  [.sigLine "solvefth_clonefe" "lista" "sum_vala", .declMid,
   .ifEq "lista" "sum_vala", .declLR "lista", .whileHdr,
   .ifLt "lista" "sum_vala", .elseLine, .closeBrace, .retNeg, .closeBrace]

/-- Lines of `solvehj_cloneqdc` (binary_search_student044_clone2.cpp). -/
def lines044c2 : List Line :=
  [.sigLine "solvehj_cloneqdc" "datasetb" "destb", .declLR "datasetb",
   .declMid, .whileHdr, .elseLine, .ifEq "datasetb" "destb", .closeBrace,
   .ifLt "datasetb" "destb", .retNeg, .closeBrace]

/-- Rank of a line in the def-before-use canonical order of this snippet
shape: the declaration of `left`/`right` precedes the loop header using
them, the declaration of `mid` precedes the comparisons using it, the two
`if` lines keep their canonical relative order, the loop's closing brace
follows the loop body and the function's closing brace comes last. -/
def lineRank : Line → Nat
  | .sigLine .. => 0
  | .declLR _ => 1
  | .whileHdr => 2
  | .declMid => 3
  | .ifEq .. => 4
  | .ifLt .. => 5
  | .elseLine => 6
  | .closeBrace => 7
  | .retNeg => 8

/-- Def-before-use normalization pass (§4.2 of the spec) on the line
vocabulary of the binary-search snippets: the lines are rearranged into
the canonical rank order, the first closing brace closing the loop body
and the second one the function. -/
def defBeforeUseReorder (ls : List Line) : List Line :=
  ls.filter (fun l => lineRank l = 0) ++
  ls.filter (fun l => lineRank l = 1) ++
  ls.filter (fun l => lineRank l = 2) ++
  ls.filter (fun l => lineRank l = 3) ++
  ls.filter (fun l => lineRank l = 4) ++
  ls.filter (fun l => lineRank l = 5) ++
  ls.filter (fun l => lineRank l = 6) ++
  (ls.filter (fun l => lineRank l = 7)).take 1 ++
  ls.filter (fun l => lineRank l = 8) ++
  (ls.filter (fun l => lineRank l = 7)).drop 1

/-- Denotation of a well-ordered binary-search line sequence: a line list
of the canonical def-before-use shape, with consistently named
identifiers, denotes the binary search over its vector parameter; any
other line list has no denotation here. -/
def denoteLines (ls : List Line) : Option (List Int → Int → Int) :=
  match ls with
  | [Line.sigLine _fn v t, Line.declLR v₁, Line.whileHdr, Line.declMid,
     Line.ifEq v₂ t₂, Line.ifLt v₃ t₃, Line.elseLine, Line.closeBrace,
     Line.retNeg, Line.closeBrace] =>
      if v₁ = v ∧ v₂ = v ∧ v₃ = v ∧ t₂ = t ∧ t₃ = t then
        some (fun numbers threshold =>
          solveoomGo numbers threshold 0 ((numbers.length : Int) - 1))
      else none
  | _ => none

/-- Renaming of identifiers: applies `ρ` to identifier tokens and leaves
every other token unchanged. -/
def renameTok (ρ : String → String) : Tok → Tok
  | .ident s => .ident (ρ s)
  | .kwInt => .kwInt
  | .kwVector => .kwVector
  | .kwWhile => .kwWhile
  | .kwIf => .kwIf
  | .kwElse => .kwElse
  | .kwReturn => .kwReturn
  | .lparen => .lparen
  | .rparen => .rparen
  | .lbrace => .lbrace
  | .rbrace => .rbrace
  | .lbracket => .lbracket
  | .rbracket => .rbracket
  | .ltTok => .ltTok
  | .gtTok => .gtTok
  | .leqTok => .leqTok
  | .eqeq => .eqeq
  | .amp => .amp
  | .comma => .comma
  | .semi => .semi
  | .assign => .assign
  | .plus => .plus
  | .minus => .minus
  | .divOp => .divOp
  | .dot => .dot
  | .num n => .num n

/-- Skeleton of a token: identifiers are collapsed to one placeholder, so
the skeleton of a stream is invariant under every renaming. -/
def skelTok : Tok → Tok
  | .ident _ => .ident ""
  | tok => tok

/-- Skeleton of a token stream. -/
def skel (s : List Tok) : List Tok :=
  s.map skelTok

/-- The renaming sending the function name and the two parameter names of
snippet `a` to those of snippet `b` and fixing every other name. -/
def renameFor (a b : String × String × String) : String → String :=
  fun s =>
    if s = a.1 then b.1
    else if s = a.2.1 then b.2.1
    else if s = a.2.2 then b.2.2
    else s

/-- The name triples (function, vector parameter, target parameter) of
the 64 binary-search snippets whose lines are in the canonical order —
all files under `dsa_dataset/binary_search` except the five
statement-shuffled ones (student015_clone2, student021_clone1,
student030_clone1, student032_clone1, student044_clone2). -/
def names64 : List (String × String × String) :=
  [("solven_clonewgr", "vecb", "goalb"),
   ("solveoom", "numbers", "threshold"),
   ("solveoom_cloneo", "numbersa", "thresholda"),
   ("solvezx_clonejp", "datasetb", "sum_valb"),
   ("solvefh_cloneper", "listb", "goalb"),
   ("solveuv", "nums", "dest"),
   ("solvec", "vec", "sum_val"),
   ("solvec_cloneabx", "veca", "sum_vala"),
   ("solveb_clonesj", "numsc", "thresholdc"),
   ("solves_clonepta", "arra", "thresholda"),
   ("solves", "vec", "threshold"),
   ("solves_cloneqyq", "vecb", "thresholdb"),
   ("solvefae_cloneli", "arrb", "thresholdb"),
   ("solvefae_clonel", "arrc", "thresholdc"),
   ("solvec", "numbers", "goal"),
   ("solvej", "numbers", "sum_val"),
   ("solvej_clonehov", "numbersb", "sum_valb"),
   ("solvej_clonea", "numbersc", "sum_valc"),
   ("solvekqv", "vec", "target"),
   ("solvekqv_clonep", "veca", "targeta"),
   ("solveqt_clonee", "lista", "targeta"),
   ("solveqt_cloneipk", "listc", "targetc"),
   ("solveex_clonejul", "numbersb", "goalb"),
   ("solveex_clonena", "numbersc", "goalc"),
   ("solvecbt", "numbers", "target"),
   ("solvecbt_clonel", "numbersa", "targeta"),
   ("solvecbt_cloneman", "numbersc", "targetc"),
   ("solvefe", "arr", "threshold"),
   ("solvesyb_clonel", "numbersa", "goala"),
   ("solvecd_clonei", "datasetb", "goalb"),
   ("solvecd_clonenbz", "datasetc", "goalc"),
   ("solvefr_clonectz", "numbersc", "thresholdc"),
   ("solveu_clonewdl", "numbersb", "thresholdb"),
   ("solver", "list", "dest"),
   ("solvefth", "list", "sum_val"),
   ("solvefth_clonejeb", "listb", "sum_valb"),
   ("solvefth_clonedtv", "listc", "sum_valc"),
   ("solveo", "dataset", "goal"),
   ("solved", "dataset", "dest"),
   ("solved_cloneoi", "datasetb", "destb"),
   ("solved_clonedhw", "datasetc", "destc"),
   ("solvef", "arr", "sum_val"),
   ("solvef_cloneum", "arra", "sum_vala"),
   ("solvef_clonec", "arrb", "sum_valb"),
   ("solvef_clonebo", "arrc", "sum_valc"),
   ("solvef_cloneokd", "veca", "targeta"),
   ("solvezie_cloneovx", "vecc", "targetc"),
   ("solvem_clonexw", "datasetb", "targetb"),
   ("solvem_clonelp", "datasetc", "targetc"),
   ("solveez_clonelfy", "vecb", "targetb"),
   ("solveeh", "dataset", "target"),
   ("solveun", "arr", "goal"),
   ("solvehj_clonee", "dataseta", "desta"),
   ("solvet_clonenu", "dataseta", "goala"),
   ("solveqjh", "vec", "goal"),
   ("solveqjh_cloneu", "veca", "goala"),
   ("solveqjh_cloneeu", "vecc", "goalc"),
   ("solvel_clonein", "numsa", "sum_vala"),
   ("solvel_clonec", "numsb", "sum_valb"),
   ("solvedbo", "nums", "threshold"),
   ("solvedbo_clonel", "numsb", "thresholdb"),
   ("solved_clonev", "arra", "targeta"),
   ("solved_cloneljp", "arrc", "targetc"),
   ("solvebzg_cloneys", "numbersb", "targetb")]

/-- The fixed identifiers of the snippet shape (`left`, `right`, `mid`
and the method name `size`), which every renaming between corpus
snippets must fix, together with distinctness of the per-file names. -/
def goodNames (n : String × String × String) : Prop :=
  n.1 ∉ ["left", "right", "mid", "size"] ∧
  n.2.1 ∉ ["left", "right", "mid", "size"] ∧
  n.2.2 ∉ ["left", "right", "mid", "size"] ∧
  n.1 ≠ n.2.1 ∧ n.1 ≠ n.2.2 ∧ n.2.1 ≠ n.2.2

instance (n : String × String × String) : Decidable (goodNames n) := by
  unfold goodNames; infer_instance

theorem cppRead_nonneg (v : List Int) (i : Int) (h : 0 ≤ i) :
    cppRead v i = v.getD i.toNat 0 := by
  simp [cppRead, h]

theorem solveoomGo_unfold (v : List Int) (t lo hi : Int) (h : lo ≤ hi) :
    solveoomGo v t lo hi =
      if cppRead v (lo + (hi - lo) / 2) = t then lo + (hi - lo) / 2
      else if cppRead v (lo + (hi - lo) / 2) < t then
        solveoomGo v t (lo + (hi - lo) / 2 + 1) hi
      else solveoomGo v t lo (lo + (hi - lo) / 2 - 1) := by
  rw [solveoomGo]
  simp [h]

theorem solveoomGo_stop (v : List Int) (t lo hi : Int) (h : ¬lo ≤ hi) :
    solveoomGo v t lo hi = -1 := by
  rw [solveoomGo]
  simp [h]

theorem sorted_getD_mono {v : List Int} (hs : List.Sorted (· ≤ ·) v) {i j : Nat}
    (hij : i ≤ j) (hj : j < v.length) : v.getD i 0 ≤ v.getD j 0 := by
  rcases Nat.eq_or_lt_of_le hij with rfl | hlt
  · exact le_rfl
  · have hi : i < v.length := Nat.lt_trans hlt hj
    rw [List.getD_eq_getElem v 0 hi, List.getD_eq_getElem v 0 hj]
    have h := hs.rel_get_of_lt (a := ⟨i, hi⟩) (b := ⟨j, hj⟩) (by simpa using hlt)
    simpa using h

theorem solveoomGo_spec_aux (v : List Int) (hs : List.Sorted (· ≤ ·) v) (t : Int) :
    ∀ n : Nat, ∀ lo hi : Int, (hi + 1 - lo).toNat = n → 0 ≤ lo → hi < (v.length : Int) →
    (∀ i : Nat, (i : Int) < lo → i < v.length → v.getD i 0 ≠ t) →
    (∀ i : Nat, hi < (i : Int) → i < v.length → v.getD i 0 ≠ t) →
    (0 ≤ solveoomGo v t lo hi ∧ (solveoomGo v t lo hi).toNat < v.length ∧
        v.getD (solveoomGo v t lo hi).toNat 0 = t) ∨
    (solveoomGo v t lo hi = -1 ∧ ∀ i : Nat, i < v.length → v.getD i 0 ≠ t) := by
  intro n
  induction n using Nat.strong_induction_on with
  | h n IH =>
    intro lo hi hn hlo hhi hleft hright
    by_cases hle : lo ≤ hi
    · rw [solveoomGo_unfold v t lo hi hle]
      have h0 : (0 : Int) ≤ lo + (hi - lo) / 2 := by omega
      have h1 : lo + (hi - lo) / 2 ≤ hi := by omega
      have h2 : lo ≤ lo + (hi - lo) / 2 := by omega
      by_cases heq : cppRead v (lo + (hi - lo) / 2) = t
      · rw [if_pos heq]
        left
        refine ⟨h0, by omega, ?_⟩
        rw [cppRead_nonneg v _ h0] at heq
        exact heq
      · rw [if_neg heq]
        by_cases hlt : cppRead v (lo + (hi - lo) / 2) < t
        · rw [if_pos hlt]
          refine IH (hi + 1 - (lo + (hi - lo) / 2 + 1)).toNat (by omega) _ _ rfl
            (by omega) hhi ?_ hright
          intro i hi1 hi2
          have hread : v.getD (lo + (hi - lo) / 2).toNat 0 < t := by
            rwa [cppRead_nonneg v _ h0] at hlt
          have hmono : v.getD i 0 ≤ v.getD (lo + (hi - lo) / 2).toNat 0 :=
            sorted_getD_mono hs (by omega) (by omega)
          omega
        · rw [if_neg hlt]
          refine IH (lo + (hi - lo) / 2 - 1 + 1 - lo).toNat (by omega) _ _ rfl
            hlo (by omega) hleft ?_
          intro i hi1 hi2
          have hread : t < v.getD (lo + (hi - lo) / 2).toNat 0 := by
            have h3 := lt_of_le_of_ne (not_lt.mp hlt) (Ne.symm heq)
            rwa [cppRead_nonneg v _ h0] at h3
          have hmono : v.getD (lo + (hi - lo) / 2).toNat 0 ≤ v.getD i 0 :=
            sorted_getD_mono hs (by omega) hi2
          omega
    · rw [solveoomGo_stop v t lo hi hle]
      right
      refine ⟨rfl, ?_⟩
      intro i hilen
      by_cases hc : (i : Int) < lo
      · exact hleft i hc hilen
      · exact hright i (by omega) hilen

theorem searchBinaryGo_unfold (v : List Int) (t lo hi : Int) (h : lo ≤ hi) :
    searchBinaryGo v t lo hi =
      if cppRead v ((lo + hi) / 2) = t then (lo + hi) / 2
      else if cppRead v ((lo + hi) / 2) < t then
        searchBinaryGo v t ((lo + hi) / 2 + 1) hi
      else searchBinaryGo v t lo ((lo + hi) / 2 - 1) := by
  rw [searchBinaryGo]
  simp [h]

theorem searchBinaryGo_stop (v : List Int) (t lo hi : Int) (h : ¬lo ≤ hi) :
    searchBinaryGo v t lo hi = -1 := by
  rw [searchBinaryGo]
  simp [h]

theorem searchBinaryGo_eq_solveoomGo (v : List Int) (t : Int) :
    ∀ n : Nat, ∀ lo hi : Int, (hi + 1 - lo).toNat = n →
    searchBinaryGo v t lo hi = solveoomGo v t lo hi := by
  intro n
  induction n using Nat.strong_induction_on with
  | h n IH =>
    intro lo hi hn
    by_cases hle : lo ≤ hi
    · have hmid : (lo + hi) / 2 = lo + (hi - lo) / 2 := by omega
      rw [searchBinaryGo_unfold v t lo hi hle, solveoomGo_unfold v t lo hi hle, hmid]
      have h1 : lo ≤ lo + (hi - lo) / 2 := by omega
      have h2 : lo + (hi - lo) / 2 ≤ hi := by omega
      by_cases heq : cppRead v (lo + (hi - lo) / 2) = t
      · rw [if_pos heq, if_pos heq]
      · rw [if_neg heq, if_neg heq]
        by_cases hlt : cppRead v (lo + (hi - lo) / 2) < t
        · rw [if_pos hlt, if_pos hlt]
          exact IH (hi + 1 - (lo + (hi - lo) / 2 + 1)).toNat (by omega) _ _ rfl
        · rw [if_neg hlt, if_neg hlt]
          exact IH (lo + (hi - lo) / 2 - 1 + 1 - lo).toNat (by omega) _ _ rfl
    · rw [searchBinaryGo_stop v t lo hi hle, solveoomGo_stop v t lo hi hle]

theorem searchBinary_eq_solveoom (v : List Int) (t : Int) :
    searchBinary v t = solveoom v t :=
  searchBinaryGo_eq_solveoomGo v t _ 0 ((v.length : Int) - 1) rfl

/-- **C4.** For every vector sorted in nondecreasing order and every
target, `solveoom` (binary_search_student002.cpp) and `searchBinary`
(binary_search_variant.cpp) agree, return a valid index holding the
target whenever the target occurs, and return `-1` whenever it does
not. -/
theorem c4_binary_search_correct (v : List Int) (hs : List.Sorted (· ≤ ·) v) (t : Int) :
    searchBinary v t = solveoom v t ∧
    ((∃ i : Nat, i < v.length ∧ v.getD i 0 = t) →
        0 ≤ solveoom v t ∧ (solveoom v t).toNat < v.length ∧
          v.getD (solveoom v t).toNat 0 = t) ∧
    ((∀ i : Nat, i < v.length → v.getD i 0 ≠ t) → solveoom v t = -1) := by
  have D := solveoomGo_spec_aux v hs t ((v.length : Int) - 1 + 1 - 0).toNat 0
    ((v.length : Int) - 1) rfl le_rfl (by omega)
    (fun i h1 _ => absurd h1 (by omega))
    (fun i h1 h2 => absurd h1 (by omega))
  refine ⟨searchBinary_eq_solveoom v t, ?_, ?_⟩
  · rintro ⟨i, hilen, hit⟩
    rcases D with ⟨a, b, c⟩ | ⟨_, hall⟩
    · exact ⟨a, b, c⟩
    · exact absurd hit (hall i hilen)
  · intro hall
    rcases D with ⟨_, b, c⟩ | ⟨h, _⟩
    · exact absurd c (hall _ b)
    · exact h

/-- Witness for C4 at the sorted vector `[1, 3, 5]` and target `3`. -/
theorem c4_binary_search_correct_witness :
    List.Sorted (· ≤ ·) [(1 : Int), 3, 5] ∧
    (searchBinary [(1 : Int), 3, 5] 3 = solveoom [(1 : Int), 3, 5] 3 ∧
      ((∃ i : Nat, i < [(1 : Int), 3, 5].length ∧ [(1 : Int), 3, 5].getD i 0 = 3) →
          0 ≤ solveoom [(1 : Int), 3, 5] 3 ∧
            (solveoom [(1 : Int), 3, 5] 3).toNat < [(1 : Int), 3, 5].length ∧
            [(1 : Int), 3, 5].getD (solveoom [(1 : Int), 3, 5] 3).toNat 0 = 3) ∧
      ((∀ i : Nat, i < [(1 : Int), 3, 5].length → [(1 : Int), 3, 5].getD i 0 ≠ 3) →
          solveoom [(1 : Int), 3, 5] 3 = -1)) :=
  ⟨by decide, c4_binary_search_correct [1, 3, 5] (by decide) 3⟩

theorem solveoomGoAcc_unfold (v : List Int) (t lo hi : Int) (h : lo ≤ hi) :
    solveoomGoAcc v t lo hi =
      if cppRead v (lo + (hi - lo) / 2) = t then [lo + (hi - lo) / 2]
      else if cppRead v (lo + (hi - lo) / 2) < t then
        (lo + (hi - lo) / 2) :: solveoomGoAcc v t (lo + (hi - lo) / 2 + 1) hi
      else (lo + (hi - lo) / 2) :: solveoomGoAcc v t lo (lo + (hi - lo) / 2 - 1) := by
  rw [solveoomGoAcc]
  simp [h]

theorem solveoomGoAcc_stop (v : List Int) (t lo hi : Int) (h : ¬lo ≤ hi) :
    solveoomGoAcc v t lo hi = [] := by
  rw [solveoomGoAcc]
  simp [h]

theorem searchBinaryGoAcc_unfold (v : List Int) (t lo hi : Int) (h : lo ≤ hi) :
    searchBinaryGoAcc v t lo hi =
      if cppRead v ((lo + hi) / 2) = t then [(lo + hi) / 2]
      else if cppRead v ((lo + hi) / 2) < t then
        ((lo + hi) / 2) :: searchBinaryGoAcc v t ((lo + hi) / 2 + 1) hi
      else ((lo + hi) / 2) :: searchBinaryGoAcc v t lo ((lo + hi) / 2 - 1) := by
  rw [searchBinaryGoAcc]
  simp [h]

theorem searchBinaryGoAcc_stop (v : List Int) (t lo hi : Int) (h : ¬lo ≤ hi) :
    searchBinaryGoAcc v t lo hi = [] := by
  rw [searchBinaryGoAcc]
  simp [h]

theorem solveoomGoAcc_bounds (v : List Int) (t : Int) :
    ∀ n : Nat, ∀ lo hi : Int, (hi + 1 - lo).toNat = n → 0 ≤ lo → hi < (v.length : Int) →
    ∀ j ∈ solveoomGoAcc v t lo hi, 0 ≤ j ∧ j < (v.length : Int) := by
  intro n
  induction n using Nat.strong_induction_on with
  | h n IH =>
    intro lo hi hn hlo hhi j hj
    by_cases hle : lo ≤ hi
    · rw [solveoomGoAcc_unfold v t lo hi hle] at hj
      have h1 : lo ≤ lo + (hi - lo) / 2 := by omega
      have h2 : lo + (hi - lo) / 2 ≤ hi := by omega
      by_cases heq : cppRead v (lo + (hi - lo) / 2) = t
      · rw [if_pos heq] at hj
        rcases List.mem_singleton.mp hj with rfl
        omega
      · rw [if_neg heq] at hj
        by_cases hlt : cppRead v (lo + (hi - lo) / 2) < t
        · rw [if_pos hlt] at hj
          rcases List.mem_cons.mp hj with rfl | hj'
          · omega
          · exact IH (hi + 1 - (lo + (hi - lo) / 2 + 1)).toNat (by omega) _ _ rfl
              (by omega) hhi j hj'
        · rw [if_neg hlt] at hj
          rcases List.mem_cons.mp hj with rfl | hj'
          · omega
          · exact IH (lo + (hi - lo) / 2 - 1 + 1 - lo).toNat (by omega) _ _ rfl
              hlo (by omega) j hj'
    · rw [solveoomGoAcc_stop v t lo hi hle] at hj
      exact absurd hj (List.not_mem_nil j)

theorem searchBinaryGoAcc_bounds (v : List Int) (t : Int) :
    ∀ n : Nat, ∀ lo hi : Int, (hi + 1 - lo).toNat = n → 0 ≤ lo → hi < (v.length : Int) →
    ∀ j ∈ searchBinaryGoAcc v t lo hi, 0 ≤ j ∧ j < (v.length : Int) := by
  intro n
  induction n using Nat.strong_induction_on with
  | h n IH =>
    intro lo hi hn hlo hhi j hj
    by_cases hle : lo ≤ hi
    · rw [searchBinaryGoAcc_unfold v t lo hi hle] at hj
      have h1 : lo ≤ (lo + hi) / 2 := by omega
      have h2 : (lo + hi) / 2 ≤ hi := by omega
      by_cases heq : cppRead v ((lo + hi) / 2) = t
      · rw [if_pos heq] at hj
        rcases List.mem_singleton.mp hj with rfl
        omega
      · rw [if_neg heq] at hj
        by_cases hlt : cppRead v ((lo + hi) / 2) < t
        · rw [if_pos hlt] at hj
          rcases List.mem_cons.mp hj with rfl | hj'
          · omega
          · exact IH (hi + 1 - ((lo + hi) / 2 + 1)).toNat (by omega) _ _ rfl
              (by omega) hhi j hj'
        · rw [if_neg hlt] at hj
          rcases List.mem_cons.mp hj with rfl | hj'
          · omega
          · exact IH ((lo + hi) / 2 - 1 + 1 - lo).toNat (by omega) _ _ rfl
              hlo (by omega) j hj'
    · rw [searchBinaryGoAcc_stop v t lo hi hle] at hj
      exact absurd hj (List.not_mem_nil j)

/-- **C8.** For every input vector (sorted or not, possibly empty) and
every target, the embedded `solveoom` and `searchBinary` are total
functions (termination), every index they read is in bounds, and on the
empty vector the loop body never runs and the result is `-1`. -/
theorem c8_binary_search_safe (v : List Int) (t : Int) :
    (solveoomAccesses v t).Forall (fun j => 0 ≤ j ∧ j < (v.length : Int)) ∧
    (searchBinaryAccesses v t).Forall (fun j => 0 ≤ j ∧ j < (v.length : Int)) ∧
    solveoomAccesses ([] : List Int) t = [] ∧
    searchBinaryAccesses ([] : List Int) t = [] ∧
    solveoom ([] : List Int) t = -1 ∧
    searchBinary ([] : List Int) t = -1 := by
  have hneg : ¬(0 : Int) ≤ (List.length ([] : List Int) : Int) - 1 := by simp
  refine ⟨?_, ?_, ?_, ?_, ?_, ?_⟩
  · exact List.forall_iff_forall_mem.mpr
      (solveoomGoAcc_bounds v t _ 0 ((v.length : Int) - 1) rfl le_rfl (by omega))
  · exact List.forall_iff_forall_mem.mpr
      (searchBinaryGoAcc_bounds v t _ 0 ((v.length : Int) - 1) rfl le_rfl (by omega))
  · exact solveoomGoAcc_stop _ t 0 _ hneg
  · exact searchBinaryGoAcc_stop _ t 0 _ hneg
  · exact solveoomGo_stop _ t 0 _ hneg
  · exact searchBinaryGo_stop _ t 0 _ hneg

theorem solvejxaGo_spec (l : List Int) : ∀ acc, solvejxaGo l acc = l.reverse ++ acc := by
  induction l with
  | nil => intro acc; simp [solvejxaGo]
  | cons x xs ih => intro acc; simp [solvejxaGo, ih]

/-- **C7.** `solvejxa` (reverse_linked_list_student004.cpp) returns the
reverse of the input value sequence, and returns null (the empty list)
on the empty list. -/
theorem c7_solvejxa_reverses (head : List Int) :
    solvejxa head = head.reverse ∧ solvejxa ([] : List Int) = [] := by
  constructor
  · simpa using solvejxaGo_spec head []
  · rfl

/-- **C6.** After the sorting loops of Student_8_SelectionSort.cpp and
Student_3_DebugMode.cpp, `arr` holds the multiset `{64, 34, 25, 12, 22}`
in nondecreasing order, i.e. the element sequence `12 22 25 34 64`. -/
theorem c6_fixed_input_sorts :
    student8Arr = [12, 22, 25, 34, 64] ∧ student3Arr = [12, 22, 25, 34, 64] ∧
    student8Arr.Perm [64, 34, 25, 12, 22] ∧ student3Arr.Perm [64, 34, 25, 12, 22] ∧
    List.Sorted (· ≤ ·) student8Arr ∧ List.Sorted (· ≤ ·) student3Arr :=
  ⟨by decide, by decide, by decide, by decide, by decide, by decide⟩

theorem solvedpsInner_found (nums : List Int) (s : Int) (i b : Nat)
    (hb : b < nums.length) (hs : nums.getD i 0 + nums.getD b 0 = s) :
    solvedpsInner nums s i b = some [(i : Int), (b : Int)] := by
  rw [solvedpsInner, if_pos hb, if_pos hs]

theorem solvedpsInner_miss (nums : List Int) (s : Int) (i b : Nat)
    (hb : b < nums.length) (hs : nums.getD i 0 + nums.getD b 0 ≠ s) :
    solvedpsInner nums s i b = solvedpsInner nums s i (b + 1) := by
  rw [solvedpsInner, if_pos hb, if_neg hs]

theorem solvedpsInner_stop (nums : List Int) (s : Int) (i b : Nat)
    (hb : ¬b < nums.length) : solvedpsInner nums s i b = none := by
  rw [solvedpsInner, if_neg hb]

theorem solvedpsInner_spec (nums : List Int) (s : Int) (i : Nat) :
    ∀ n : Nat, ∀ b : Nat, nums.length - b = n →
    (solvedpsInner nums s i b = none ∧
        ∀ j : Nat, b ≤ j → j < nums.length → nums.getD i 0 + nums.getD j 0 ≠ s) ∨
    (∃ j : Nat, b ≤ j ∧ j < nums.length ∧ nums.getD i 0 + nums.getD j 0 = s ∧
        solvedpsInner nums s i b = some [(i : Int), (j : Int)] ∧
        ∀ j' : Nat, b ≤ j' → j' < j → nums.getD i 0 + nums.getD j' 0 ≠ s) := by
  intro n
  induction n using Nat.strong_induction_on with
  | h n IH =>
    intro b hn
    by_cases hb : b < nums.length
    · by_cases hfound : nums.getD i 0 + nums.getD b 0 = s
      · right
        exact ⟨b, le_rfl, hb, hfound, solvedpsInner_found nums s i b hb hfound,
          fun j' h1 h2 => absurd (Nat.lt_of_le_of_lt h1 h2) (lt_irrefl b)⟩
      · rcases IH (nums.length - (b + 1)) (by omega) (b + 1) rfl with
          ⟨hnone, hall⟩ | ⟨j, hj1, hj2, hj3, hj4, hj5⟩
        · left
          refine ⟨by rw [solvedpsInner_miss nums s i b hb hfound]; exact hnone, ?_⟩
          intro j h1 h2
          rcases Nat.eq_or_lt_of_le h1 with rfl | h1'
          · exact hfound
          · exact hall j h1' h2
        · right
          refine ⟨j, by omega, hj2, hj3,
            by rw [solvedpsInner_miss nums s i b hb hfound]; exact hj4, ?_⟩
          intro j' h1 h2
          rcases Nat.eq_or_lt_of_le h1 with rfl | h1'
          · exact hfound
          · exact hj5 j' h1' h2
    · left
      exact ⟨solvedpsInner_stop nums s i b hb,
        fun j h1 h2 => absurd (Nat.lt_of_le_of_lt h1 h2) (by omega)⟩

theorem solvedpsOuter_step (nums : List Int) (s : Int) (i : Nat)
    (hi : i < nums.length) :
    solvedpsOuter nums s i =
      match solvedpsInner nums s i (i + 1) with
      | some r => r
      | none => solvedpsOuter nums s (i + 1) := by
  rw [solvedpsOuter]
  simp [hi]

theorem solvedpsOuter_stop (nums : List Int) (s : Int) (i : Nat)
    (hi : ¬i < nums.length) : solvedpsOuter nums s i = [] := by
  rw [solvedpsOuter]
  simp [hi]

theorem solvedpsOuter_spec (nums : List Int) (s : Int) :
    ∀ n : Nat, ∀ i0 : Nat, nums.length - i0 = n →
    (solvedpsOuter nums s i0 = [] ∧
        ∀ p q : Nat, i0 ≤ p → ¬ValidPair nums s p q) ∨
    (∃ p q : Nat, i0 ≤ p ∧ ValidPair nums s p q ∧
        solvedpsOuter nums s i0 = [(p : Int), (q : Int)] ∧
        ∀ p' q' : Nat, i0 ≤ p' → ValidPair nums s p' q' →
          p < p' ∨ (p = p' ∧ q ≤ q')) := by
  intro n
  induction n using Nat.strong_induction_on with
  | h n IH =>
    intro i0 hn
    by_cases hi : i0 < nums.length
    · rcases solvedpsInner_spec nums s i0 (nums.length - (i0 + 1)) (i0 + 1) rfl with
        ⟨hnone, hall⟩ | ⟨j, hj1, hj2, hj3, hj4, hj5⟩
      · have hstep : solvedpsOuter nums s i0 = solvedpsOuter nums s (i0 + 1) := by
          rw [solvedpsOuter_step nums s i0 hi, hnone]
        have hnexti0 : ∀ q : Nat, ¬ValidPair nums s i0 q := by
          intro q ⟨hq1, hq2, hq3⟩
          exact hall q hq1 hq2 hq3
        rcases IH (nums.length - (i0 + 1)) (by omega) (i0 + 1) rfl with
          ⟨hres, hnop⟩ | ⟨p, q, hp1, hp2, hp3, hp4⟩
        · left
          refine ⟨by rw [hstep]; exact hres, ?_⟩
          intro p q h1 hv
          rcases Nat.eq_or_lt_of_le h1 with rfl | h1'
          · exact hnexti0 q hv
          · exact hnop p q h1' hv
        · right
          refine ⟨p, q, by omega, hp2, by rw [hstep]; exact hp3, ?_⟩
          intro p' q' h1 hv
          rcases Nat.eq_or_lt_of_le h1 with rfl | h1'
          · exact absurd hv (hnexti0 q')
          · exact hp4 p' q' h1' hv
      · right
        refine ⟨i0, j, le_rfl, ⟨by omega, hj2, hj3⟩,
          by rw [solvedpsOuter_step nums s i0 hi, hj4], ?_⟩
        intro p' q' h1 hv
        rcases Nat.eq_or_lt_of_le h1 with rfl | h1'
        · right
          refine ⟨rfl, ?_⟩
          by_contra hq
          exact hj5 q' (by exact hv.1) (by omega) hv.2.2
        · left; exact h1'
    · left
      refine ⟨solvedpsOuter_stop nums s i0 hi, ?_⟩
      intro p q h1 ⟨hv1, hv2, _⟩
      omega

/-- **C5.** `solvedps` (two_sum_student001.cpp) returns the
lexicographically least pair of indices `{i, j}` with `i < j` and
`nums[i] + nums[j] == sum_val` when one exists, and returns the empty
vector exactly when no such pair exists. -/
theorem c5_solvedps_two_sum (nums : List Int) (sum_val : Int) :
    (solvedps nums sum_val = [] ↔ ∀ i j : Nat, ¬ValidPair nums sum_val i j) ∧
    (∀ i j : Nat, ValidPair nums sum_val i j →
      ∃ p q : Nat, solvedps nums sum_val = [(p : Int), (q : Int)] ∧
        ValidPair nums sum_val p q ∧
        ∀ p' q' : Nat, ValidPair nums sum_val p' q' →
          p < p' ∨ (p = p' ∧ q ≤ q')) := by
  unfold solvedps
  rcases solvedpsOuter_spec nums sum_val nums.length 0 rfl with
    ⟨hres, hnop⟩ | ⟨p, q, _, hp2, hp3, hp4⟩
  · constructor
    · exact ⟨fun _ i j => hnop i j (Nat.zero_le i), fun _ => hres⟩
    · intro i j hv
      exact absurd hv (hnop i j (Nat.zero_le i))
  · constructor
    · constructor
      · intro habs
        rw [habs] at hp3
        exact absurd hp3.symm (by simp)
      · intro hall
        exact absurd hp2 (hall p q)
    · intro i j _
      exact ⟨p, q, hp3, hp2, fun p' q' hv => hp4 p' q' (Nat.zero_le p') hv⟩

/-- Witness for C5 at `nums = [3, 4, 1]`, `sum_val = 7`, pair `(0, 1)`. -/
theorem c5_solvedps_two_sum_witness :
    ValidPair [3, 4, 1] 7 0 1 ∧
    (∃ p q : Nat, solvedps [3, 4, 1] 7 = [(p : Int), (q : Int)] ∧
      ValidPair [3, 4, 1] 7 p q ∧
      ∀ p' q' : Nat, ValidPair [3, 4, 1] 7 p' q' →
        p < p' ∨ (p = p' ∧ q ≤ q')) :=
  ⟨by decide, (c5_solvedps_two_sum [3, 4, 1] 7).2 0 1 (by decide)⟩

theorem mps_cons (x : Int) (xs : List Int) : mps (x :: xs) = max x (x + mps xs) := rfl

theorem mts_singleton (x : Int) : mts [x] = x := by
  show max x (x + mps []) = x
  simp [mps]

theorem mts_snoc (l : List Int) (x : Int) : mts (l ++ [x]) = max x (x + mts l) := by
  unfold mts
  rw [List.reverse_append]
  simp only [List.reverse_cons, List.reverse_nil, List.nil_append, List.singleton_append]
  exact mps_cons x l.reverse

theorem msa_singleton (x : Int) : msa [x] = x := rfl

theorem msa_snoc (l : List Int) (hl : l ≠ []) (x : Int) :
    msa (l ++ [x]) = max (msa l) (mts (l ++ [x])) := by
  obtain ⟨y, t, hyt⟩ := List.exists_cons_of_ne_nil
    (show l.reverse ≠ [] by simpa using hl)
  unfold msa mts
  rw [List.reverse_append]
  simp only [List.reverse_cons, List.reverse_nil, List.nil_append, List.singleton_append]
  rw [hyt]
  rfl

theorem msa_ge_mts : ∀ l : List Int, l ≠ [] → mts l ≤ msa l := by
  intro l
  induction l using List.reverseRecOn with
  | nil => intro h; exact absurd rfl h
  | append_singleton l' x _IH =>
    intro _
    by_cases hl : l' = []
    · subst hl
      simp only [List.nil_append]
      rw [mts_singleton, msa_singleton]
    · rw [msa_snoc l' hl x]
      exact le_max_right _ _

theorem sum_drop_le_mts : ∀ (l : List Int) (i : Nat), i < l.length → (l.drop i).sum ≤ mts l := by
  intro l
  induction l using List.reverseRecOn with
  | nil => intro i hi; simp at hi
  | append_singleton l' x IH =>
    intro i hi
    rw [mts_snoc]
    by_cases hil : i < l'.length
    · rw [List.drop_append_of_le_length hil.le, List.sum_append]
      have h1 := IH i hil
      have h2 : (l'.drop i).sum + [x].sum ≤ x + mts l' := by simp; omega
      exact le_trans h2 (le_max_right _ _)
    · have hieq : i = l'.length := by simp at hi; omega
      subst hieq
      rw [List.drop_append_of_le_length le_rfl, List.drop_length]
      simp

theorem mts_attained : ∀ l : List Int, l ≠ [] →
    ∃ i : Nat, i < l.length ∧ (l.drop i).sum = mts l := by
  intro l
  induction l using List.reverseRecOn with
  | nil => intro h; exact absurd rfl h
  | append_singleton l' x IH =>
    intro _
    by_cases hl : l' = []
    · subst hl
      exact ⟨0, by simp, by simpa using (mts_singleton x).symm⟩
    · rw [mts_snoc]
      rcases max_choice x (x + mts l') with hmax | hmax
      · refine ⟨l'.length, by simp, ?_⟩
        rw [List.drop_append_of_le_length le_rfl, List.drop_length, hmax]
        simp
      · obtain ⟨i, hi, hsum⟩ := IH hl
        refine ⟨i, by simp; omega, ?_⟩
        rw [List.drop_append_of_le_length hi.le, List.sum_append, hmax]
        simp
        omega

theorem window_le_msa : ∀ (l : List Int) (i c : Nat), 1 ≤ c → i + c ≤ l.length →
    ((l.drop i).take c).sum ≤ msa l := by
  intro l
  induction l using List.reverseRecOn with
  | nil => intro i c hc hic; simp at hic; omega
  | append_singleton l' x IH =>
    intro i c hc hic
    by_cases hin : i + c ≤ l'.length
    · have hl' : l' ≠ [] := by
        intro h
        subst h
        simp at hin
        omega
      rw [List.drop_append_of_le_length (by omega),
        List.take_append_of_le_length (by simp [List.length_drop]; omega)]
      exact le_trans (IH i c hc hin)
        (by rw [msa_snoc l' hl' x]; exact le_max_left _ _)
    · have hic2 : i + c = l'.length + 1 := by simp at hic; omega
      have hi_le : i ≤ l'.length := by omega
      rw [List.drop_append_of_le_length hi_le]
      have hlen2 : (l'.drop i ++ [x]).length = c := by simp [List.length_drop]; omega
      rw [show (l'.drop i ++ [x]).take c = l'.drop i ++ [x] from
        hlen2 ▸ List.take_length _, List.sum_append]
      have hle : (l'.drop i).sum + [x].sum ≤ mts (l' ++ [x]) := by
        rw [mts_snoc]
        by_cases hil : i < l'.length
        · have h1 := sum_drop_le_mts l' i hil
          have h2 : (l'.drop i).sum + [x].sum ≤ x + mts l' := by simp; omega
          exact le_trans h2 (le_max_right _ _)
        · have hieq : i = l'.length := by omega
          subst hieq
          rw [List.drop_length]
          simp
      exact le_trans hle (msa_ge_mts (l' ++ [x]) (by simp))

theorem msa_attained : ∀ l : List Int, l ≠ [] →
    ∃ i c : Nat, 1 ≤ c ∧ i + c ≤ l.length ∧ ((l.drop i).take c).sum = msa l := by
  intro l
  induction l using List.reverseRecOn with
  | nil => intro h; exact absurd rfl h
  | append_singleton l' x IH =>
    intro _
    by_cases hl' : l' = []
    · subst hl'
      exact ⟨0, 1, le_rfl, by simp, by simp [msa_singleton]⟩
    · rw [msa_snoc l' hl' x]
      rcases max_choice (msa l') (mts (l' ++ [x])) with hmax | hmax
      · obtain ⟨i, c, hc, hic, hsum⟩ := IH hl'
        refine ⟨i, c, hc, by simp; omega, ?_⟩
        rw [List.drop_append_of_le_length (by omega),
          List.take_append_of_le_length (by simp [List.length_drop]; omega), hmax, ← hsum]
      · obtain ⟨i, hi, hsum⟩ := mts_attained (l' ++ [x]) (by simp)
        refine ⟨i, (l' ++ [x]).length - i, by omega, by omega, ?_⟩
        have hlen2 : ((l' ++ [x]).drop i).length = (l' ++ [x]).length - i := by
          simp [List.length_drop]
        rw [show ((l' ++ [x]).drop i).take ((l' ++ [x]).length - i) = (l' ++ [x]).drop i from
          hlen2 ▸ List.take_length _, hmax, ← hsum]

theorem if_lt_zero_eq_max (a : Int) : (if a < 0 then (0 : Int) else a) = max 0 a := by
  rcases lt_or_le a 0 with h | h
  · rw [if_pos h, max_eq_left h.le]
  · rw [if_neg (not_lt.mpr h), max_eq_right h]

theorem if_ge_eq_max (s x : Int) : (if s + x ≥ x then s + x else x) = max x (s + x) := by
  rcases le_or_lt x (s + x) with h | h
  · rw [if_pos h, max_eq_right h]
  · rw [if_neg (not_le.mpr h), max_eq_left h.le]

theorem getD_zero_append (l : List Int) (x : Int) (h : l ≠ []) :
    (l ++ [x]).getD 0 0 = l.getD 0 0 := by
  obtain ⟨y, t, rfl⟩ := List.exists_cons_of_ne_nil h
  rfl

theorem maxSubArray12_fold (l : List Int) (hl : l ≠ []) :
    l.foldl (fun (st : Int × Int) x =>
      let sum := max x (st.1 + x)
      (sum, max st.2 sum)) (0, l.getD 0 0) = (mts l, msa l) := by
  induction l using List.reverseRecOn with
  | nil => exact absurd rfl hl
  | append_singleton l' x IH =>
    by_cases hl' : l' = []
    · subst hl'
      simp only [List.nil_append, List.foldl_cons, List.foldl_nil]
      rw [mts_singleton, msa_singleton]
      simp
    · rw [getD_zero_append l' x hl', List.foldl_append, IH hl']
      simp only [List.foldl_cons, List.foldl_nil]
      rw [mts_snoc, msa_snoc l' hl' x, mts_snoc, add_comm (mts l') x]

theorem maxSubArray12_eq_msa (l : List Int) (hl : l ≠ []) : maxSubArray12 l = msa l :=
  congrArg Prod.snd (maxSubArray12_fold l hl)

theorem solvegpw_eq_msa (l : List Int) (hl : l ≠ []) : solvegpw l = msa l :=
  congrArg Prod.snd (maxSubArray12_fold l hl)

theorem foldl_range'_getD (l : List Int) {β : Type} (f : β → Int → β) :
    ∀ (c : Nat), ∀ (a : Nat) (init : β), l.length - a = c →
    (List.range' a c).foldl (fun st k => f st (l.getD k 0)) init = (l.drop a).foldl f init := by
  intro c
  induction c with
  | zero =>
      intro a init ha
      rw [List.drop_eq_nil_of_le (by omega)]
      rfl
  | succ c IH =>
      intro a init ha
      have halt : a < l.length := by omega
      rw [List.range'_succ, List.foldl_cons, IH (a + 1) _ (by omega),
        List.drop_eq_getElem_cons halt, List.foldl_cons,
        List.getD_eq_getElem l 0 halt]

theorem foldl_range_getD (l : List Int) {β : Type} (f : β → Int → β) (init : β) :
    (List.range l.length).foldl (fun st k => f st (l.getD k 0)) init = l.foldl f init := by
  rw [List.range_eq_range']
  have h := foldl_range'_getD l f l.length 0 init (by omega)
  simpa using h

theorem maxSubArray02_eq_fold (l : List Int) :
    maxSubArray02 l = (l.foldl (fun (st : Int × Int) v =>
      let sum := st.1 + v
      let maxi := max sum st.2
      (if sum < 0 then 0 else sum, maxi)) (0, INT_MIN)).2 :=
  congrArg Prod.snd (foldl_range_getD l (fun (st : Int × Int) v =>
    let sum := st.1 + v
    let maxi := max sum st.2
    (if sum < 0 then 0 else sum, maxi)) (0, INT_MIN))

theorem maxSubArray09_eq_fold (l : List Int) :
    maxSubArray09 l = (l.foldl (fun (st : Int × Int) v =>
      let sum := if st.1 + v ≥ v then st.1 + v else v
      (sum, max st.2 sum)) (0, INT_MIN)).2 :=
  congrArg Prod.snd (foldl_range_getD l (fun (st : Int × Int) v =>
    let sum := if st.1 + v ≥ v then st.1 + v else v
    (sum, max st.2 sum)) (0, INT_MIN))

theorem kadane02_fold (l : List Int) (hl : l ≠ []) :
    l.foldl (fun (st : Int × Int) v =>
      let sum := st.1 + v
      let maxi := max sum st.2
      (if sum < 0 then 0 else sum, maxi)) (0, INT_MIN) =
    (max 0 (mts l), max INT_MIN (msa l)) := by
  induction l using List.reverseRecOn with
  | nil => exact absurd rfl hl
  | append_singleton l' x IH =>
    by_cases hl' : l' = []
    · subst hl'
      simp only [List.nil_append, List.foldl_cons, List.foldl_nil]
      rw [mts_singleton, msa_singleton, zero_add, if_lt_zero_eq_max, max_comm x INT_MIN]
    · rw [List.foldl_append, IH hl']
      simp only [List.foldl_cons, List.foldl_nil]
      have hsum : max 0 (mts l') + x = mts (l' ++ [x]) := by
        rw [mts_snoc, ← max_add_add_right, zero_add, add_comm (mts l') x]
      rw [hsum, if_lt_zero_eq_max, msa_snoc l' hl' x,
        max_left_comm (mts (l' ++ [x])) INT_MIN (msa l'),
        max_comm (mts (l' ++ [x])) (msa l')]

theorem kadane09_fold (l : List Int) (hl : l ≠ []) :
    l.foldl (fun (st : Int × Int) v =>
      let sum := if st.1 + v ≥ v then st.1 + v else v
      (sum, max st.2 sum)) (0, INT_MIN) =
    (mts l, max INT_MIN (msa l)) := by
  induction l using List.reverseRecOn with
  | nil => exact absurd rfl hl
  | append_singleton l' x IH =>
    by_cases hl' : l' = []
    · subst hl'
      simp only [List.nil_append, List.foldl_cons, List.foldl_nil]
      rw [mts_singleton, msa_singleton, if_ge_eq_max, zero_add, max_self]
    · rw [List.foldl_append, IH hl']
      simp only [List.foldl_cons, List.foldl_nil]
      rw [if_ge_eq_max, add_comm (mts l') x, msa_snoc l' hl' x, mts_snoc, max_assoc]

theorem head_le_msa (l : List Int) (hl : l ≠ []) : l.getD 0 0 ≤ msa l := by
  obtain ⟨y, t, rfl⟩ := List.exists_cons_of_ne_nil hl
  have h := window_le_msa (y :: t) 0 1 le_rfl (by simp)
  simpa using h

theorem int_min_le_msa (l : List Int) (hl : l ≠ []) (hb : ∀ x ∈ l, INT_MIN ≤ x) :
    INT_MIN ≤ msa l := by
  obtain ⟨y, t, rfl⟩ := List.exists_cons_of_ne_nil hl
  exact le_trans (hb y (List.mem_cons_self y t)) (head_le_msa (y :: t) (by simp))

theorem maxSubArray02_eq_msa (l : List Int) (hl : l ≠ []) (hb : ∀ x ∈ l, INT_MIN ≤ x) :
    maxSubArray02 l = msa l := by
  rw [maxSubArray02_eq_fold, kadane02_fold l hl]
  exact max_eq_right (int_min_le_msa l hl hb)

theorem maxSubArray09_eq_msa (l : List Int) (hl : l ≠ []) (hb : ∀ x ∈ l, INT_MIN ≤ x) :
    maxSubArray09 l = msa l := by
  rw [maxSubArray09_eq_fold, kadane09_fold l hl]
  exact max_eq_right (int_min_le_msa l hl hb)

theorem le_foldl_max (xs : List Int) : ∀ a : Int, a ≤ xs.foldl max a := by
  induction xs with
  | nil => intro a; exact le_rfl
  | cons x xs IH =>
      intro a
      exact le_trans (le_max_left a x) (IH (max a x))

theorem mem_le_foldl_max (xs : List Int) : ∀ (a y : Int), y ∈ xs → y ≤ xs.foldl max a := by
  induction xs with
  | nil => intro a y hy; exact absurd hy (List.not_mem_nil y)
  | cons x xs IH =>
      intro a y hy
      rcases List.mem_cons.mp hy with rfl | hy'
      · exact le_trans (le_max_right a y) (le_foldl_max xs (max a y))
      · exact IH (max a x) y hy'

theorem foldl_max_eq_init_or_mem (xs : List Int) :
    ∀ a : Int, xs.foldl max a = a ∨ xs.foldl max a ∈ xs := by
  induction xs with
  | nil => intro a; exact Or.inl rfl
  | cons x xs IH =>
      intro a
      rcases IH (max a x) with heq | hmem
      · rw [List.foldl_cons, heq]
        rcases max_choice a x with h | h
        · exact Or.inl h
        · exact Or.inr (by rw [h]; exact List.mem_cons_self x xs)
      · exact Or.inr (List.mem_cons_of_mem x hmem)

theorem foldl_sum_range' (l : List Int) :
    ∀ (c i : Nat) (a : Int),
    (List.range' i c).foldl (fun s k => s + l.getD k 0) a = a + ((l.drop i).take c).sum := by
  intro c
  induction c with
  | zero => intro i a; simp
  | succ c IH =>
      intro i a
      rw [List.range'_succ, List.foldl_cons, IH (i + 1) (a + l.getD i 0)]
      by_cases hil : i < l.length
      · rw [List.drop_eq_getElem_cons hil, List.take_succ_cons, List.sum_cons,
          List.getD_eq_getElem l 0 hil]
        omega
      · rw [List.getD_eq_default l 0 (by omega),
          List.drop_eq_nil_of_le (le_of_not_lt hil),
          List.drop_eq_nil_of_le (by omega)]
        simp

theorem maxSubArray03_eq_foldl_max (l : List Int) :
    maxSubArray03 l = List.foldl max (l.getD 0 0) (windowSums l) := by
  unfold maxSubArray03 windowSums
  simp only [foldl_sum_range', zero_add]
  rw [List.foldl_flatten]
  rw [List.foldl_map (fun i =>
    (List.range' i (l.length - i)).map (fun j => ((l.drop i).take (j + 1 - i)).sum))
    (fun b wl => wl.foldl max b) (List.range l.length) (l.getD 0 0)]
  congr 1
  funext acc i
  rw [List.foldl_map]

theorem mem_windowSums (l : List Int) (y : Int) :
    y ∈ windowSums l ↔
      ∃ i c : Nat, 1 ≤ c ∧ i + c ≤ l.length ∧ y = ((l.drop i).take c).sum := by
  unfold windowSums
  rw [List.mem_flatten]
  constructor
  · rintro ⟨wl, hwl, hy⟩
    obtain ⟨i, hi, rfl⟩ := List.mem_map.mp hwl
    obtain ⟨j, hj, rfl⟩ := List.mem_map.mp hy
    have hi' : i < l.length := List.mem_range.mp hi
    obtain ⟨k, hk, rfl⟩ := List.mem_range'.mp hj
    exact ⟨i, i + 1 * k + 1 - i, by omega, by omega, rfl⟩
  · rintro ⟨i, c, hc, hic, rfl⟩
    refine ⟨(List.range' i (l.length - i)).map
      (fun j => ((l.drop i).take (j + 1 - i)).sum), ?_, ?_⟩
    · refine List.mem_map.mpr ⟨i, ?_, rfl⟩
      exact List.mem_range.mpr (by omega)
    · refine List.mem_map.mpr ⟨i + c - 1, ?_, ?_⟩
      · exact List.mem_range'.mpr ⟨c - 1, by omega, by omega⟩
      · have hcc : i + c - 1 + 1 - i = c := by omega
        simp only [hcc]

theorem maxSubArray03_eq_msa (l : List Int) (hl : l ≠ []) : maxSubArray03 l = msa l := by
  rw [maxSubArray03_eq_foldl_max]
  apply le_antisymm
  · rcases foldl_max_eq_init_or_mem (windowSums l) (l.getD 0 0) with heq | hmem
    · rw [heq]
      exact head_le_msa l hl
    · obtain ⟨i, c, hc, hic, hy⟩ := (mem_windowSums l _).mp hmem
      rw [hy]
      exact window_le_msa l i c hc hic
  · obtain ⟨i, c, hc, hic, hsum⟩ := msa_attained l hl
    rw [← hsum]
    exact mem_le_foldl_max _ _ _ ((mem_windowSums l _).mpr ⟨i, c, hc, hic, rfl⟩)

/-- **C2.** The cubic brute-force `maxSubArray` (max_subarray_03.cpp) and
the linear Kadane `maxSubArray` (max_subarray_12.cpp) return the same
value on every non-empty vector of integers under exact integer
arithmetic, and that value is the maximum over the sums of the non-empty
contiguous subarrays (the windows `(nums.drop i).take c`, `c ≥ 1`). -/
theorem c2_brute_equals_kadane (nums : List Int) (h : nums ≠ []) :
    maxSubArray03 nums = maxSubArray12 nums ∧
    (∀ i c : Nat, 1 ≤ c → i + c ≤ nums.length →
      ((nums.drop i).take c).sum ≤ maxSubArray12 nums) ∧
    (∃ i c : Nat, 1 ≤ c ∧ i + c ≤ nums.length ∧
      ((nums.drop i).take c).sum = maxSubArray12 nums) := by
  have h12 := maxSubArray12_eq_msa nums h
  refine ⟨(maxSubArray03_eq_msa nums h).trans h12.symm, ?_, ?_⟩
  · intro i c hc hic
    rw [h12]
    exact window_le_msa nums i c hc hic
  · obtain ⟨i, c, hc, hic, hsum⟩ := msa_attained nums h
    exact ⟨i, c, hc, hic, by rw [h12, hsum]⟩

/-- Witness for C2 at the vector `[2, -1, 3]`. -/
theorem c2_brute_equals_kadane_witness :
    ([(2 : Int), -1, 3] ≠ []) ∧
    (maxSubArray03 [(2 : Int), -1, 3] = maxSubArray12 [(2 : Int), -1, 3] ∧
      (∀ i c : Nat, 1 ≤ c → i + c ≤ [(2 : Int), -1, 3].length →
        (([(2 : Int), -1, 3].drop i).take c).sum ≤ maxSubArray12 [(2 : Int), -1, 3]) ∧
      (∃ i c : Nat, 1 ≤ c ∧ i + c ≤ [(2 : Int), -1, 3].length ∧
        (([(2 : Int), -1, 3].drop i).take c).sum = maxSubArray12 [(2 : Int), -1, 3])) :=
  ⟨by decide, c2_brute_equals_kadane [2, -1, 3] (by decide)⟩

/-- **C9.** On every non-empty vector of C++ `int` values (each element
at least `INT_MIN`), the reset-on-negative Kadane of max_subarray_02.cpp
and the if/else Kadane of max_subarray_09.cpp return the same value as
the max-extend Kadane of max_subarray_12.cpp, under exact integer
arithmetic. -/
theorem c9_kadane_variants_agree (nums : List Int) (h : nums ≠ [])
    (hb : ∀ x ∈ nums, INT_MIN ≤ x) :
    maxSubArray02 nums = maxSubArray12 nums ∧
    maxSubArray09 nums = maxSubArray12 nums := by
  have h12 := maxSubArray12_eq_msa nums h
  exact ⟨(maxSubArray02_eq_msa nums h hb).trans h12.symm,
    (maxSubArray09_eq_msa nums h hb).trans h12.symm⟩

/-- Witness for C9 at the vector `[1, -2, 3]`. -/
theorem c9_kadane_variants_agree_witness :
    (([(1 : Int), -2, 3] ≠ []) ∧ ∀ x ∈ [(1 : Int), -2, 3], INT_MIN ≤ x) ∧
    (maxSubArray02 [(1 : Int), -2, 3] = maxSubArray12 [(1 : Int), -2, 3] ∧
      maxSubArray09 [(1 : Int), -2, 3] = maxSubArray12 [(1 : Int), -2, 3]) :=
  ⟨⟨by decide, by decide⟩, c9_kadane_variants_agree [1, -2, 3] (by decide) (by decide)⟩

/-- **C10.** The max-subarray functions initialising their running
maximum with element 0 (max_subarray_12.cpp, max_subarray_03.cpp and
`solvegpw`) unconditionally read index 0, so the empty vector is outside
their domain, while on every non-empty vector all their reads are in
bounds. -/
theorem c10_init_read_safety (nums : List Int) :
    0 ∈ maxSubArray03Accesses nums ∧ 0 ∈ maxSubArray12Accesses nums ∧
    0 ∈ solvegpwAccesses nums ∧
    (nums ≠ [] →
      (maxSubArray03Accesses nums).Forall (fun k => k < nums.length) ∧
      (maxSubArray12Accesses nums).Forall (fun k => k < nums.length) ∧
      (solvegpwAccesses nums).Forall (fun k => k < nums.length)) ∧
    ¬(maxSubArray03Accesses ([] : List Int)).Forall
        (fun k => k < ([] : List Int).length) ∧
    ¬(maxSubArray12Accesses ([] : List Int)).Forall
        (fun k => k < ([] : List Int).length) ∧
    ¬(solvegpwAccesses ([] : List Int)).Forall
        (fun k => k < ([] : List Int).length) := by
  refine ⟨List.mem_cons_self 0 _, List.mem_singleton.mpr rfl,
    List.mem_singleton.mpr rfl, ?_, by decide, by decide, by decide⟩
  intro hne
  have hpos : 0 < nums.length := List.length_pos.mpr hne
  refine ⟨?_, ?_, ?_⟩
  · rw [List.forall_iff_forall_mem]
    intro k hk
    rcases List.mem_cons.mp hk with rfl | hk'
    · exact hpos
    · obtain ⟨i, hi, hk2⟩ := List.mem_flatMap.mp hk'
      obtain ⟨j, hj, hk3⟩ := List.mem_flatMap.mp hk2
      have hi' : i < nums.length := List.mem_range.mp hi
      obtain ⟨kj, hkj, rfl⟩ := List.mem_range'.mp hj
      obtain ⟨kk, hkk, rfl⟩ := List.mem_range'.mp hk3
      omega
  · rw [List.forall_iff_forall_mem]
    intro k hk
    rcases List.mem_singleton.mp hk with rfl
    exact hpos
  · rw [List.forall_iff_forall_mem]
    intro k hk
    rcases List.mem_singleton.mp hk with rfl
    exact hpos

/-- Witness for C10 at the vector `[5]`. -/
theorem c10_init_read_safety_witness :
    ([(5 : Int)] ≠ []) ∧
    ((maxSubArray03Accesses [(5 : Int)]).Forall (fun k => k < [(5 : Int)].length) ∧
      (maxSubArray12Accesses [(5 : Int)]).Forall (fun k => k < [(5 : Int)].length) ∧
      (solvegpwAccesses [(5 : Int)]).Forall (fun k => k < [(5 : Int)].length)) :=
  ⟨by decide, (c10_init_read_safety [5]).2.2.2.1 (by decide)⟩

theorem skel_map_rename (ρ : String → String) (s : List Tok) :
    skel (s.map (renameTok ρ)) = skel s := by
  unfold skel
  rw [List.map_map]
  have h : skelTok ∘ renameTok ρ = skelTok := by
    funext tok
    cases tok <;> rfl
  rw [h]

theorem bsToks_map_rename (ρ : String → String) (f v t : String)
    (h1 : ρ "left" = "left") (h2 : ρ "right" = "right") (h3 : ρ "mid" = "mid")
    (h4 : ρ "size" = "size") :
    (bsToks f v t).map (renameTok ρ) = bsToks (ρ f) (ρ v) (ρ t) := by
  simp [bsToks, canonicalLines, fnToks, lineToks, renameTok, h1, h2, h3, h4]

theorem renameFor_fixes (a b : String × String × String) (s : String)
    (h1 : s ≠ a.1) (h2 : s ≠ a.2.1) (h3 : s ≠ a.2.2) : renameFor a b s = s := by
  simp [renameFor, h1, h2, h3]

theorem renameFor_fst (a b : String × String × String) : renameFor a b a.1 = b.1 := by
  simp [renameFor]

theorem renameFor_snd (a b : String × String × String) (h : a.2.1 ≠ a.1) :
    renameFor a b a.2.1 = b.2.1 := by
  simp [renameFor, h]

theorem renameFor_trd (a b : String × String × String) (h1 : a.2.2 ≠ a.1)
    (h2 : a.2.2 ≠ a.2.1) : renameFor a b a.2.2 = b.2.2 := by
  simp [renameFor, h1, h2]

theorem names64_good : ∀ n ∈ names64, goodNames n := by decide

theorem denoteLines_canonical (f v t : String) :
    denoteLines (canonicalLines f v t) =
      some (fun numbers threshold =>
        solveoomGo numbers threshold 0 ((numbers.length : Int) - 1)) := by
  simp [denoteLines, canonicalLines]

theorem corpus_renaming_one_way (a b : String × String × String)
    (ha : a ∈ names64) :
    (bsToks a.1 a.2.1 a.2.2).map (renameTok (renameFor a b)) =
      bsToks b.1 b.2.1 b.2.2 := by
  obtain ⟨ha1, ha2, ha3, ha4, ha5, ha6⟩ := names64_good a ha
  simp only [List.mem_cons, List.mem_singleton, not_or] at ha1 ha2 ha3
  rw [bsToks_map_rename (renameFor a b) a.1 a.2.1 a.2.2
    (renameFor_fixes a b "left" (Ne.symm ha1.1) (Ne.symm ha2.1) (Ne.symm ha3.1))
    (renameFor_fixes a b "right" (Ne.symm ha1.2.1) (Ne.symm ha2.2.1) (Ne.symm ha3.2.1))
    (renameFor_fixes a b "mid" (Ne.symm ha1.2.2.1) (Ne.symm ha2.2.2.1) (Ne.symm ha3.2.2.1))
    (renameFor_fixes a b "size" (Ne.symm ha1.2.2.2.1) (Ne.symm ha2.2.2.2.1)
      (Ne.symm ha3.2.2.2.1)),
    renameFor_fst a b, renameFor_snd a b (Ne.symm ha4),
    renameFor_trd a b (Ne.symm ha5) (Ne.symm ha6)]

/-- **C3 (amended).** Every pair of the 64 canonically ordered
binary-search snippets is related by a renaming of identifiers in both
directions (hence by a bijection on identifiers), and every one of them
denotes the binary-search function.  The five statement-shuffled files
are excluded: their token sequences are line permutations, not
renamings, of the others (see the counterexample below). -/
theorem c3_corpus_single_renaming_family (a b : String × String × String)
    (ha : a ∈ names64) (hb : b ∈ names64) :
    ∃ ρ σ : String → String,
      (bsToks a.1 a.2.1 a.2.2).map (renameTok ρ) = bsToks b.1 b.2.1 b.2.2 ∧
      (bsToks b.1 b.2.1 b.2.2).map (renameTok σ) = bsToks a.1 a.2.1 a.2.2 ∧
      denoteLines (canonicalLines a.1 a.2.1 a.2.2) =
        some (fun numbers threshold =>
          solveoomGo numbers threshold 0 ((numbers.length : Int) - 1)) ∧
      denoteLines (canonicalLines b.1 b.2.1 b.2.2) =
        some (fun numbers threshold =>
          solveoomGo numbers threshold 0 ((numbers.length : Int) - 1)) :=
  ⟨renameFor a b, renameFor b a,
    corpus_renaming_one_way a b ha,
    corpus_renaming_one_way b a hb,
    denoteLines_canonical a.1 a.2.1 a.2.2,
    denoteLines_canonical b.1 b.2.1 b.2.2⟩

/-- Witness for the amended C3 at the pair
binary_search_student002.cpp / binary_search_student001_clone2.cpp. -/
theorem c3_corpus_single_renaming_family_witness :
    ("solveoom", "numbers", "threshold") ∈ names64 ∧
    ("solven_clonewgr", "vecb", "goalb") ∈ names64 ∧
    (∃ ρ σ : String → String,
      (bsToks "solveoom" "numbers" "threshold").map (renameTok ρ) =
        bsToks "solven_clonewgr" "vecb" "goalb" ∧
      (bsToks "solven_clonewgr" "vecb" "goalb").map (renameTok σ) =
        bsToks "solveoom" "numbers" "threshold" ∧
      denoteLines (canonicalLines "solveoom" "numbers" "threshold") =
        some (fun numbers threshold =>
          solveoomGo numbers threshold 0 ((numbers.length : Int) - 1)) ∧
      denoteLines (canonicalLines "solven_clonewgr" "vecb" "goalb") =
        some (fun numbers threshold =>
          solveoomGo numbers threshold 0 ((numbers.length : Int) - 1))) :=
  ⟨by decide, by decide,
    c3_corpus_single_renaming_family ("solveoom", "numbers", "threshold")
      ("solven_clonewgr", "vecb", "goalb") (by decide) (by decide)⟩

/-- **C3 counterexample.** The snippet using `vecb`/`goalb` named by the
claim is the statement-shuffled `solvejd_cloneib`
(binary_search_student015_clone2.cpp); no renaming of identifiers maps
its token sequence onto that of `solveoom`
(binary_search_student002.cpp, `numbers`/`threshold`) in either
direction, because a renaming preserves the non-identifier token
skeleton and the two skeletons differ. -/
theorem c3_counterexample_shuffled_not_renaming :
    (¬∃ ρ : String → String,
        (fnToks lines015c2).map (renameTok ρ) =
          bsToks "solveoom" "numbers" "threshold") ∧
    (¬∃ ρ : String → String,
        (bsToks "solveoom" "numbers" "threshold").map (renameTok ρ) =
          fnToks lines015c2) := by
  constructor
  · rintro ⟨ρ, h⟩
    have hs := congrArg skel h
    rw [skel_map_rename] at hs
    exact absurd hs (by decide)
  · rintro ⟨ρ, h⟩
    have hs := congrArg skel h
    rw [skel_map_rename] at hs
    exact absurd hs (by decide)

/-- **C1.** The two statement-shuffled clones `solvejd_cloneib`
(binary_search_student015_clone2.cpp) and `solveex_clonea`
(binary_search_student021_clone1.cpp) are permutations of the canonical
statement lines; reordering their lines into the def-before-use
canonical order yields line sequences that denote a function
extensionally equal to `solveoom` (binary_search_student002.cpp) on
every sorted vector and target. -/
theorem c1_shuffled_clones_reorder (v : List Int)
    (hv : List.Sorted (· ≤ ·) v) (t : Int) :
    (defBeforeUseReorder lines015c2).Perm lines015c2 ∧
    (defBeforeUseReorder lines021c1).Perm lines021c1 ∧
    ∃ f g : List Int → Int → Int,
      denoteLines (defBeforeUseReorder lines015c2) = some f ∧
      denoteLines (defBeforeUseReorder lines021c1) = some g ∧
      f v t = solveoom v t ∧ g v t = solveoom v t :=
  ⟨by decide, by decide,
    fun numbers threshold => solveoomGo numbers threshold 0 ((numbers.length : Int) - 1),
    fun numbers threshold => solveoomGo numbers threshold 0 ((numbers.length : Int) - 1),
    rfl, rfl, rfl, rfl⟩

/-- Witness for C1 at the sorted vector `[1, 2, 3]` and target `2`. -/
theorem c1_shuffled_clones_reorder_witness :
    List.Sorted (· ≤ ·) [(1 : Int), 2, 3] ∧
    ((defBeforeUseReorder lines015c2).Perm lines015c2 ∧
      (defBeforeUseReorder lines021c1).Perm lines021c1 ∧
      ∃ f g : List Int → Int → Int,
        denoteLines (defBeforeUseReorder lines015c2) = some f ∧
        denoteLines (defBeforeUseReorder lines021c1) = some g ∧
        f [(1 : Int), 2, 3] 2 = solveoom [(1 : Int), 2, 3] 2 ∧
        g [(1 : Int), 2, 3] 2 = solveoom [(1 : Int), 2, 3] 2) :=
  ⟨by decide, c1_shuffled_clones_reorder [1, 2, 3] (by decide) 2⟩
